import Mathlib

/-!
Verification of the resilient generation layer of the biotact agent
prototype: the retrieval engine (`src/agent/rag.py`) and the multi-provider
LLM client with retry, fallback and circuit breaker (`src/agent/llm_client.py`).

The Python code is shallowly embedded:

* pure helpers (`_tokenise`, `_cosine_similarity`, `_estimate_tokens`,
  `OfflineProvider.generate`) become Lean functions;
* floating-point scores are idealised as real numbers; the comparisons and
  the positivity filter that `RAGEngine.search` performs on scores are
  implemented by the equivalent decidable integer cross-multiplication
  tests, with bridging lemmas proving the equivalence with the real-valued
  score order;
* the stateful `LLMClient.generate` becomes a function of an explicit
  client state (its instance fields) returning the produced result or
  error, the post-call failure counter, and a trace of the provider
  attempts and back-off sleeps it performed;
* a provider is modelled by its name, its kind (which of the concrete
  Python classes it is, deciding the static-configuration checks in
  `_retryable_call`), its static configuration string, and an abstract
  behaviour function giving the outcome of each network attempt.
-/

namespace Biotact

/-! ### Tokenisation (rag.py `_tokenise`, llm_client.py `_estimate_tokens`) -/

/-- Python `str.split()` with no arguments: split on whitespace runs and
drop empty pieces. -/
def pySplit (s : String) : List String :=
  (s.split (fun c => c.isWhitespace)).filter (fun w => w ≠ "")

/-- `RAGEngine._tokenise`: lower-cased whitespace tokens. -/
def tokenise (text : String) : List String :=
  ((pySplit text).filter (fun t => t ≠ "")).map (fun t => t.toLower)

/-- `_estimate_tokens`: `max(1, len(text.split()))`. -/
def estimateTokens (text : String) : ℕ :=
  max 1 (pySplit text).length

/-! ### Retrieval engine (rag.py) -/

/-- `RAGChunk`: a chunk of text stored for retrieval. -/
structure RAGChunk where
  text : String
  source : String
  order : ℕ
deriving DecidableEq

/-- Numerator of `_cosine_similarity`: sum over the intersection of the two
term-count supports of the products of counts. -/
def numQD (q d : List String) : ℕ :=
  ∑ t ∈ q.toFinset ∩ d.toFinset, q.count t * d.count t

/-- Squared norm of a term-count vector (`query_norm**2` / `doc_norm**2`). -/
def normSq (l : List String) : ℕ :=
  ∑ t ∈ l.toFinset, l.count t ^ 2

open scoped Classical in
/-- `RAGEngine._cosine_similarity`, with the floating-point value idealised
as a real number.  The two early-return guards of the source are kept. -/
noncomputable def cosineSim (q d : List String) : ℝ :=
  if d = [] ∨ q = [] then 0
  else if Real.sqrt (normSq q) = 0 ∨ Real.sqrt (normSq d) = 0 then 0
  else (numQD q d : ℝ) / (Real.sqrt (normSq q) * Real.sqrt (normSq d))

/-- One scored entry of `RAGEngine.search`: the chunk, its position in the
engine's `_chunks` list, and the integer data (`numerator`,
`doc_norm**2`) that determines its real-valued score against the query. -/
structure Scored where
  chunk : RAGChunk
  idx : ℕ
  num : ℕ
  dn : ℕ
deriving DecidableEq

def mkScored (qts : List String) (i : ℕ) (c : RAGChunk) : Scored :=
  ⟨c, i, numQD qts (tokenise c.text), normSq (tokenise c.text)⟩

/-- The `scored` list of `RAGEngine.search` before sorting: every chunk's
score is computed and entries with score `> 0` are kept (for term-count
vectors the score is positive exactly when the integer numerator is). -/
def scoredEntries (chunks : List RAGChunk) (query : String) : List Scored :=
  (chunks.enum.map (fun p => mkScored (tokenise query) p.1 p.2)).filter
    (fun e => decide (0 < e.num))

/-- Decidable test for `score a ≥ score b` among entries scored against the
same query: cross-multiplied squared comparison, equivalent to comparing
the real scores `num / (√qn·√dn)`. -/
def scoreGe (a b : Scored) : Bool :=
  decide (b.num ^ 2 * a.dn ≤ a.num ^ 2 * b.dn)

/-- Stable insertion for the descending sort performed by
`scored.sort(key=..., reverse=True)`: an element is placed before the
first strictly smaller one, so earlier entries stay first on ties. -/
def insertScored (a : Scored) : List Scored → List Scored
  | [] => [a]
  | b :: l => if scoreGe a b then a :: b :: l else b :: insertScored a l

/-- Stable descending sort by score (Python `list.sort` with
`reverse=True` is stable). -/
def sortScored : List Scored → List Scored
  | [] => []
  | a :: l => insertScored a (sortScored l)

/-- `RAGEngine.search`: empty-query guard, score, filter positive, stable
descending sort, truncate to `topK`. -/
def search (chunks : List RAGChunk) (query : String) (topK : ℕ) : List Scored :=
  if query.trim = "" then []
  else (sortScored (scoredEntries chunks query)).take topK

/-- The real score a search result carries: the cosine similarity of the
query tokens and the chunk's tokens. -/
noncomputable def scoreOf (query : String) (e : Scored) : ℝ :=
  cosineSim (tokenise query) (tokenise e.chunk.text)

/-- Rational square of an entry's score, `num² / dn`: comparing these
values is equivalent to comparing the non-negative real scores, since the
query norm is the same factor on both sides. -/
def keyQ (e : Scored) : ℚ := (e.num : ℚ) ^ 2 / (e.dn : ℚ)

/-- Order in which Python's stable descending sort emits two entries: a
strictly larger score first, ties in original indexing order. -/
def entryRel (a b : Scored) : Prop :=
  keyQ b < keyQ a ∨ (keyQ a = keyQ b ∧ a.idx < b.idx)

/-- Invariant of every entry produced by `scoredEntries` for a query: its
integer fields really are the numerator and squared document norm of its
chunk against the query, and the score filter passed. -/
def GoodEntry (query : String) (e : Scored) : Prop :=
  e.num = numQD (tokenise query) (tokenise e.chunk.text)
  ∧ e.dn = normSq (tokenise e.chunk.text)
  ∧ 0 < e.num

/-! ### LLM client (llm_client.py) -/

/-- Normalised LLM response (`LLMResult`); the float `cost` is idealised
as a rational. -/
structure LLMResult where
  content : String
  model : String
  promptTokens : ℕ
  completionTokens : ℕ
  cost : ℚ
  provider : String
deriving DecidableEq

/-- Body of `OfflineProvider.generate`: fixed marker text followed by the
first 400 characters of the prompt. -/
def offlineContent (prompt : String) : String :=
  "[offline-response]\nThis environment is running in offline mode. The following prompt was received:\n"
    ++ prompt.take 400

/-- `OfflineProvider.generate`: deterministic offline result. -/
def offlineGenerate (prompt : String) : LLMResult :=
  { content := offlineContent prompt
    model := "offline-synthesiser"
    promptTokens := estimateTokens prompt
    completionTokens := estimateTokens (offlineContent prompt)
    cost := 0
    provider := "offline" }

/-- Which concrete provider class an object is (`isinstance` checks in
`_retryable_call`). -/
inductive ProviderKind where
  | openai
  | ollama
  | offline
  | custom
deriving DecidableEq

/-- Outcome of one call to a provider's `generate`: a result, a raised
`ProviderNotConfigured`, or any other raised exception. -/
inductive CallOutcome where
  | ok (r : LLMResult)
  | notConfigured (msg : String)
  | err (msg : String)
deriving DecidableEq

/-- A provider as `LLMClient` sees it: a name, its concrete class, its
static configuration string (`api_key` / `host`, with `""` modelling an
absent value), and the behaviour of its `generate` on each attempt
number (abstracting the network). -/
structure Provider where
  kind : ProviderKind
  name : String
  config : String
  gen : String → ℕ → CallOutcome

/-- `OfflineProvider.generate` is pure: it ignores the attempt and never
raises.  For the other kinds the abstract behaviour decides. -/
def providerGenerate (p : Provider) (prompt : String) (attempt : ℕ) : CallOutcome :=
  match p.kind with
  | .offline => .ok (offlineGenerate prompt)
  | _ => p.gen prompt attempt

/-- Observable steps of one `generate` call: an actual call into a
provider's `generate` (a network attempt) and a back-off sleep. -/
inductive Event where
  | attempt (provider : String) (n : ℕ)
  | sleep (duration : ℕ)
deriving DecidableEq

/-- `LLMClient._retryable_call`: the static-configuration guards run
before the provider is called, so a skipped provider produces no attempt
event. -/
def retryableCall (p : Provider) (prompt : String) (attempt : ℕ) :
    List Event × CallOutcome :=
  if p.kind = .openai ∧ p.config = "" then
    ([], .notConfigured "OpenAI provider requires an API key")
  else if p.kind = .ollama ∧ p.config = "" then
    ([], .notConfigured "Ollama provider requires a host")
  else
    ([.attempt p.name attempt], providerGenerate p prompt attempt)

/-- The `last_error` variable of `LLMClient.generate`. -/
inductive LLMFailure where
  | notConfigured (msg : String)
  | generic (msg : String)
deriving DecidableEq

/-- Inner retry loop of `LLMClient.generate` over a list of attempt
numbers: success returns immediately, `ProviderNotConfigured` breaks out,
any other error sleeps `2 ** attempt` and retries. -/
def runAttempts (p : Provider) (prompt : String) :
    List ℕ → Option LLMFailure → List Event × Option LLMResult × Option LLMFailure
  | [], le => ([], none, le)
  | a :: rest, le =>
    match retryableCall p prompt a with
    | (ev, .ok r) => (ev, some r, le)
    | (ev, .notConfigured m) => (ev, none, some (.notConfigured m))
    | (ev, .err m) =>
      let out := runAttempts p prompt rest (some (.generic m))
      (ev ++ Event.sleep (2 ^ a) :: out.1, out.2.1, out.2.2)

/-- Outer provider loop of `LLMClient.generate`. -/
def runProviders (prompt : String) (maxR : ℕ) :
    List Provider → Option LLMFailure → List Event × Option LLMResult × Option LLMFailure
  | [], le => ([], none, le)
  | p :: ps, le =>
    let inner := runAttempts p prompt (List.range' 1 maxR) le
    match inner.2.1 with
    | some r => (inner.1, some r, inner.2.2)
    | none =>
      let outer := runProviders prompt maxR ps inner.2.2
      (inner.1 ++ outer.1, outer.2.1, outer.2.2)

/-- The instance fields of `LLMClient` that `generate` reads. -/
structure ClientState where
  providers : List Provider
  primaryName : String
  maxRetries : ℕ
  circuitBreakerThreshold : ℕ
  failureCount : ℕ

/-- `LLMClient._ordered_providers`: providers whose name matches the
configured primary first, then the rest, both in registration order. -/
def orderedProviders (st : ClientState) : List Provider :=
  st.providers.filter (fun p => p.name == st.primaryName)
    ++ st.providers.filter (fun p => p.name != st.primaryName)

/-- Errors a `generate` call can surface. -/
inductive GenError where
  | circuitOpen
  | provider (e : LLMFailure)
  | noProviders
deriving DecidableEq

deriving instance DecidableEq for Except

/-- What one `generate` call produces: the trace of attempts and sleeps,
the returned result or raised error, and the post-call value of
`failure_count`. -/
structure GenOutput where
  trace : List Event
  outcome : Except GenError LLMResult
  failureCount : ℕ
deriving DecidableEq

/-- `LLMClient.generate`: run the providers in order; on success reset the
failure counter and return; otherwise `_handle_failure` increments the
counter once and raises the circuit-breaker error when the incremented
counter has reached the threshold, else the last observed error is
re-raised; with no observed error the no-providers error is raised. -/
def generate (st : ClientState) (prompt : String) : GenOutput :=
  let run := runProviders prompt st.maxRetries (orderedProviders st) none
  match run.2.1 with
  | some r => ⟨run.1, .ok r, 0⟩
  | none =>
    match run.2.2 with
    | some e =>
      if st.circuitBreakerThreshold ≤ st.failureCount + 1 then
        ⟨run.1, .error .circuitOpen, st.failureCount + 1⟩
      else
        ⟨run.1, .error (.provider e), st.failureCount + 1⟩
    | none => ⟨run.1, .error .noProviders, st.failureCount⟩

/-! ### Client construction (llm_client.py `LLMClient.__init__`) -/

/-- The settings fields the client constructor reads; `""` models an absent
optional value (Python falsiness). -/
structure SettingsModel where
  openaiApiKey : String
  ollamaHost : String
  llmPrimary : String
  llmMaxRetries : ℕ
  llmCircuitBreakerThreshold : ℕ

/-- The `OfflineProvider()` instance the constructor appends. -/
def offlineProvider : Provider :=
  ⟨.offline, "offline", "", fun prompt _ => .ok (offlineGenerate prompt)⟩

def openAIProvider (apiKey : String) (net : String → ℕ → CallOutcome) : Provider :=
  ⟨.openai, "openai", apiKey, net⟩

def ollamaProvider (host : String) (net : String → ℕ → CallOutcome) : Provider :=
  ⟨.ollama, "ollama", host, net⟩

/-- Provider list built by `LLMClient.__init__`: the explicit list if one
was passed and non-empty (Python truthiness of `providers`), otherwise the
settings-driven list; an `OfflineProvider` is appended in every case.
`netO` and `netL` abstract the network behaviour of the auto-constructed
providers. -/
def mkProviderList (explicit : List Provider) (s : SettingsModel)
    (netO netL : String → ℕ → CallOutcome) : List Provider :=
  (if explicit.isEmpty then
    (if s.openaiApiKey ≠ "" then [openAIProvider s.openaiApiKey netO] else [])
      ++ (if s.ollamaHost ≠ "" then [ollamaProvider s.ollamaHost netL] else [])
  else explicit)
    ++ [offlineProvider]

/-- `LLMClient.__init__`. -/
def mkClient (explicit : List Provider) (s : SettingsModel)
    (netO netL : String → ℕ → CallOutcome) : ClientState :=
  { providers := mkProviderList explicit s netO netL
    primaryName := s.llmPrimary
    maxRetries := s.llmMaxRetries
    circuitBreakerThreshold := s.llmCircuitBreakerThreshold
    failureCount := 0 }

/-- Number of actual `generate` calls made against the named provider in a
trace. -/
def isAttemptFor (name : String) : Event → Bool
  | .attempt n _ => n == name
  | _ => false

def countAttempts (name : String) (tr : List Event) : ℕ :=
  (tr.filter (isAttemptFor name)).length

/-! ### Concrete states used to settle individual claims -/

/-- A client state whose failure counter already sits at the threshold,
with the always-succeeding offline provider installed. -/
def trippedState : ClientState :=
  { providers := [offlineProvider]
    primaryName := "openai"
    maxRetries := 3
    circuitBreakerThreshold := 3
    failureCount := 3 }

/-- A provider that raises a generic error on every attempt. -/
def alwaysFailProvider : Provider :=
  ⟨.custom, "flaky", "", fun _ _ => .err "boom"⟩

/-- A client with a single always-failing provider and threshold 1. -/
def exhaustState : ClientState :=
  { providers := [alwaysFailProvider]
    primaryName := "flaky"
    maxRetries := 1
    circuitBreakerThreshold := 1
    failureCount := 0 }

/-- A client with a single always-failing provider and a threshold the
next failure does not reach. -/
def belowThresholdState : ClientState :=
  { providers := [alwaysFailProvider]
    primaryName := "flaky"
    maxRetries := 1
    circuitBreakerThreshold := 5
    failureCount := 0 }

/-- A provider that errors on its first attempt and succeeds on every
later one. -/
def recoveringProvider : Provider :=
  ⟨.custom, "recovering", "",
    fun prompt a => if a ≤ 1 then .err "first-try" else .ok (offlineGenerate prompt)⟩

/-- A client whose first success happens at the second provider's second
attempt: the primary provider always fails, the fallback recovers. -/
def firstSuccessState : ClientState :=
  { providers := [alwaysFailProvider, recoveringProvider]
    primaryName := "flaky"
    maxRetries := 2
    circuitBreakerThreshold := 5
    failureCount := 0 }

/-- The spec's three-provider scenario: unconfigured hosted provider,
always-erroring local provider, offline fallback, `maxRetries = 2`. -/
def scenarioState (netO : String → ℕ → CallOutcome) : ClientState :=
  mkClient
    [openAIProvider "" netO,
     ollamaProvider "http://localhost:11434" (fun _ _ => .err "connection refused")]
    { openaiApiKey := ""
      ollamaHost := "http://localhost:11434"
      llmPrimary := "openai"
      llmMaxRetries := 2
      llmCircuitBreakerThreshold := 5 }
    netO (fun _ _ => .err "connection refused")

/-! ### Helper lemmas about the client loops -/

/-- `_ordered_providers` does not read the failure counter. -/
theorem orderedProviders_setFc (st : ClientState) (n : ℕ) :
    orderedProviders { st with failureCount := n } = orderedProviders st := rfl

/-- A provider of the offline class: `_retryable_call` performs no
configuration check and `OfflineProvider.generate` always returns. -/
theorem retryableCall_offlineKind (p : Provider) (hk : p.kind = .offline)
    (prompt : String) (a : ℕ) :
    retryableCall p prompt a = ([.attempt p.name a], .ok (offlineGenerate prompt)) := by
  simp [retryableCall, providerGenerate, hk]

/-- Inner loop, first attempt succeeds: return at once. -/
theorem runAttempts_ok (p : Provider) (prompt : String) (r : LLMResult)
    (ev : List Event) (a : ℕ) (rest : List ℕ) (le : Option LLMFailure)
    (h : retryableCall p prompt a = (ev, .ok r)) :
    runAttempts p prompt (a :: rest) le = (ev, some r, le) := by
  simp [runAttempts, h]

/-- Inner loop, `ProviderNotConfigured` on the first attempt: break with no
events, recording the error. -/
theorem runAttempts_skip (p : Provider) (prompt : String) (m : String)
    (a : ℕ) (rest : List ℕ) (le : Option LLMFailure)
    (h : retryableCall p prompt a = ([], .notConfigured m)) :
    runAttempts p prompt (a :: rest) le = ([], none, some (.notConfigured m)) := by
  simp [runAttempts, h]

/-- Inner loop, transient error on the first listed attempt: record the
attempt, sleep `2 ** attempt`, and continue with the remaining attempts
carrying the error as `last_error`. -/
theorem runAttempts_err_cons (p : Provider) (prompt : String) (ev : List Event)
    (m : String) (a : ℕ) (rest : List ℕ) (le : Option LLMFailure)
    (h : retryableCall p prompt a = (ev, .err m)) :
    runAttempts p prompt (a :: rest) le =
      (ev ++ Event.sleep (2 ^ a) :: (runAttempts p prompt rest (some (.generic m))).1,
        (runAttempts p prompt rest (some (.generic m))).2.1,
        (runAttempts p prompt rest (some (.generic m))).2.2) := by
  simp [runAttempts, h]

/-- Inner loop over attempts `s, …, s+n-1` when every attempt raises a
transient error: one attempt event and one `2 ** attempt` sleep per
attempt, no result, and the last attempt's error recorded. -/
theorem runAttempts_err_all (p : Provider) (prompt : String) (errF : ℕ → String) :
    ∀ (n s : ℕ) (le : Option LLMFailure), 1 ≤ n →
      (∀ a, s ≤ a → a < s + n → retryableCall p prompt a = ([.attempt p.name a], .err (errF a))) →
      runAttempts p prompt (List.range' s n) le =
        (((List.range' s n).map (fun a => [Event.attempt p.name a, Event.sleep (2 ^ a)])).flatten,
          none, some (.generic (errF (s + n - 1)))) := by
  intro n
  induction n with
  | zero => omega
  | succ m ih =>
    intro s le _ hall
    have hcons : List.range' s (m + 1) = s :: List.range' (s + 1) m := rfl
    have hs : retryableCall p prompt s = ([.attempt p.name s], .err (errF s)) :=
      hall s le_rfl (by omega)
    cases m with
    | zero =>
      rw [hcons, runAttempts_err_cons p prompt _ _ s _ le hs]
      simp [runAttempts]
    | succ k =>
      have hrec := ih (s + 1) (some (.generic (errF s))) (by omega)
        (fun a ha1 ha2 => hall a (by omega) (by omega))
      have harg : s + 1 + (k + 1) - 1 = s + (k + 1 + 1) - 1 := by omega
      rw [harg] at hrec
      rw [hcons, runAttempts_err_cons p prompt _ _ s _ le hs, hrec]
      simp [hcons]

/-- Outer loop, head provider succeeds on its first attempt. -/
theorem runProviders_ok (p : Provider) (ps : List Provider) (prompt : String)
    (maxR : ℕ) (r : LLMResult) (ev : List Event) (le : Option LLMFailure)
    (hmax : 1 ≤ maxR)
    (h : retryableCall p prompt 1 = (ev, .ok r)) :
    runProviders prompt maxR (p :: ps) le = (ev, some r, le) := by
  obtain ⟨m, rfl⟩ : ∃ m, maxR = m + 1 := ⟨maxR - 1, by omega⟩
  have hcons : List.range' 1 (m + 1) = 1 :: List.range' 2 m := rfl
  simp [runProviders, hcons, runAttempts_ok p prompt r ev 1 _ le h]

/-- Inner loop over attempts `s, …, s+n-1` when attempts before `k` raise
transient errors and attempt `k` succeeds: the loop emits the failed
attempts with their back-off sleeps, then the successful attempt, and
returns that result at once — later attempt numbers are never reached. -/
theorem runAttempts_first_ok (p : Provider) (prompt : String) (errF : ℕ → String)
    (r : LLMResult) :
    ∀ (n s k : ℕ) (le : Option LLMFailure), s ≤ k → k < s + n →
      (∀ a, s ≤ a → a < k → retryableCall p prompt a = ([.attempt p.name a], .err (errF a))) →
      retryableCall p prompt k = ([.attempt p.name k], .ok r) →
      ∃ le', runAttempts p prompt (List.range' s n) le =
        (((List.range' s (k - s)).map
            (fun a => [Event.attempt p.name a, Event.sleep (2 ^ a)])).flatten
          ++ [Event.attempt p.name k], some r, le') := by
  intro n
  induction n with
  | zero => omega
  | succ m ih =>
    intro s k le hsk hkn hfail hok
    have hcons : List.range' s (m + 1) = s :: List.range' (s + 1) m := rfl
    rcases Nat.eq_or_lt_of_le hsk with rfl | hlt
    · refine ⟨le, ?_⟩
      rw [hcons, runAttempts_ok p prompt r _ s _ le hok]
      simp
    · have hs : retryableCall p prompt s = ([.attempt p.name s], .err (errF s)) :=
        hfail s le_rfl hlt
      obtain ⟨le', hrec⟩ := ih (s + 1) k (some (.generic (errF s))) hlt (by omega)
        (fun a ha1 ha2 => hfail a (by omega) ha2) hok
      refine ⟨le', ?_⟩
      rw [hcons, runAttempts_err_cons p prompt _ _ s _ le hs, hrec]
      have hks : List.range' s (k - s) = s :: List.range' (s + 1) (k - (s + 1)) := by
        have : k - s = (k - (s + 1)) + 1 := by omega
        rw [this]
        rfl
      rw [hks]
      simp

/-- Outer loop over an appended provider list, when the first part yields
no result: the second part runs afterwards with the threaded last error,
and its traces follow the first part's. -/
theorem runProviders_append (prompt : String) (maxR : ℕ) :
    ∀ (ps₁ ps₂ : List Provider) (le : Option LLMFailure),
      (runProviders prompt maxR ps₁ le).2.1 = none →
      runProviders prompt maxR (ps₁ ++ ps₂) le =
        ((runProviders prompt maxR ps₁ le).1
            ++ (runProviders prompt maxR ps₂ ((runProviders prompt maxR ps₁ le).2.2)).1,
          (runProviders prompt maxR ps₂ ((runProviders prompt maxR ps₁ le).2.2)).2.1,
          (runProviders prompt maxR ps₂ ((runProviders prompt maxR ps₁ le).2.2)).2.2) := by
  intro ps₁
  induction ps₁ with
  | nil =>
    intro ps₂ le _
    simp [runProviders]
  | cons q qs ih =>
    intro ps₂ le hnone
    simp only [runProviders, List.cons_append] at hnone ⊢
    rcases hI : runAttempts q prompt (List.range' 1 maxR) le with ⟨tr, res, le'⟩
    cases res with
    | some r =>
      rw [hI] at hnone
      simp at hnone
    | none =>
      rw [hI] at hnone
      dsimp only at hnone ⊢
      rw [List.append_eq, ih ps₂ le' hnone]
      simp

/-- With zero configured retries the inner loop never runs: every
provider is passed over with no events, no result and an unchanged last
error. -/
theorem runProviders_zero_retries (prompt : String) :
    ∀ (ps : List Provider) (le : Option LLMFailure),
      runProviders prompt 0 ps le = ([], none, le) := by
  intro ps
  induction ps with
  | nil => intro le; rfl
  | cons p t ih =>
    intro le
    simp only [runProviders]
    rw [show List.range' 1 0 = [] from rfl]
    rw [show runAttempts p prompt [] le = ([], none, le) from rfl]
    dsimp only
    rw [ih le]
    simp

/-- Outer loop when some provider in the list is of the offline class:
the run always produces a result. -/
theorem runProviders_offline_total (prompt : String) (maxR : ℕ) (hmax : 1 ≤ maxR) :
    ∀ (ps : List Provider) (le : Option LLMFailure), (∃ p ∈ ps, p.kind = .offline) →
      ∃ r tr le', runProviders prompt maxR ps le = (tr, some r, le') := by
  intro ps
  induction ps with
  | nil => intro le h; simp at h
  | cons p ps ih =>
    intro le h
    by_cases hk : p.kind = .offline
    · exact ⟨offlineGenerate prompt, [.attempt p.name 1], le,
        runProviders_ok p ps prompt maxR _ _ le hmax (retryableCall_offlineKind p hk prompt 1)⟩
    · have hmem : ∃ q ∈ ps, q.kind = .offline := by
        obtain ⟨q, hq, hqk⟩ := h
        rcases List.mem_cons.mp hq with rfl | hq'
        · exact absurd hqk hk
        · exact ⟨q, hq', hqk⟩
      cases hres : (runAttempts p prompt (List.range' 1 maxR) le).2.1 with
      | some r =>
        exact ⟨r, (runAttempts p prompt (List.range' 1 maxR) le).1,
          (runAttempts p prompt (List.range' 1 maxR) le).2.2, by
            simp only [runProviders]
            rw [hres]⟩
      | none =>
        obtain ⟨r, tr, le', hrun⟩ := ih (runAttempts p prompt (List.range' 1 maxR) le).2.2 hmem
        exact ⟨r, (runAttempts p prompt (List.range' 1 maxR) le).1 ++ tr, le', by
          simp only [runProviders]
          rw [hres, hrun]⟩

/-- `generate` in terms of a successful run of the provider loop. -/
theorem generate_of_run_ok (st : ClientState) (prompt : String) (r : LLMResult)
    (h : (runProviders prompt st.maxRetries (orderedProviders st) none).2.1 = some r) :
    generate st prompt =
      ⟨(runProviders prompt st.maxRetries (orderedProviders st) none).1, .ok r, 0⟩ := by
  simp only [generate]
  rw [h]

/-- The trace of a `generate` call is the trace of its provider loop,
whatever the outcome. -/
theorem generate_trace (st : ClientState) (prompt : String) :
    (generate st prompt).trace =
      (runProviders prompt st.maxRetries (orderedProviders st) none).1 := by
  simp only [generate]
  cases hres : (runProviders prompt st.maxRetries (orderedProviders st) none).2.1 with
  | some r => rfl
  | none =>
    cases hle : (runProviders prompt st.maxRetries (orderedProviders st) none).2.2 with
    | some e => dsimp only; split <;> rfl
    | none => rfl

/-- `generate` when the provider loop ends with no result and a recorded
last error: `_handle_failure` runs, the counter is incremented once, and
the surfaced error is the circuit-breaker error exactly when the
incremented counter has reached the threshold. -/
theorem generate_exhausted (st : ClientState) (prompt : String) (e : LLMFailure)
    (h1 : (runProviders prompt st.maxRetries (orderedProviders st) none).2.1 = none)
    (h2 : (runProviders prompt st.maxRetries (orderedProviders st) none).2.2 = some e) :
    generate st prompt =
      ⟨(runProviders prompt st.maxRetries (orderedProviders st) none).1,
        .error (if st.circuitBreakerThreshold ≤ st.failureCount + 1 then .circuitOpen
          else .provider e),
        st.failureCount + 1⟩ := by
  simp only [generate]
  rw [h1, h2]
  by_cases hc : st.circuitBreakerThreshold ≤ st.failureCount + 1 <;> simp [hc]

/-- Whenever `generate` returns a result, the post-call failure counter is
zero. -/
theorem generate_ok_resets (st : ClientState) (prompt : String) (r : LLMResult)
    (h : (generate st prompt).outcome = .ok r) :
    (generate st prompt).failureCount = 0 := by
  simp only [generate] at h ⊢
  cases hres : (runProviders prompt st.maxRetries (orderedProviders st) none).2.1 with
  | some r' => rfl
  | none =>
    rw [hres] at h
    cases hle : (runProviders prompt st.maxRetries (orderedProviders st) none).2.2 with
    | some e => rw [hle] at h; dsimp only at h; revert h; split <;> simp
    | none => rw [hle] at h; simp at h

/-- Every provider of the registered list appears in the attempt order. -/
theorem mem_orderedProviders (st : ClientState) (p : Provider)
    (hp : p ∈ st.providers) : p ∈ orderedProviders st := by
  unfold orderedProviders
  by_cases h : p.name = st.primaryName
  · exact List.mem_append_left _ (List.mem_filter.mpr ⟨hp, by simp [h]⟩)
  · exact List.mem_append_right _ (List.mem_filter.mpr ⟨hp, by simp [h]⟩)

/-! ### Claim C1 -/

/-- Claim C1, formalised as stated: with the failure counter at or above
the threshold, `generate` would fail immediately with the circuit-breaker
error and invoke no provider.  This closed counterexample refutes it: in
`trippedState` the counter equals the threshold, yet the call invokes the
offline provider and returns its result. -/
theorem claim1_counterexample :
    trippedState.circuitBreakerThreshold ≤ trippedState.failureCount
    ∧ (generate trippedState "hi").outcome = .ok (offlineGenerate "hi")
    ∧ Event.attempt "offline" 1 ∈ (generate trippedState "hi").trace := by
  refine ⟨by decide, ?_, ?_⟩ <;>
    simp [generate, runProviders, runAttempts, retryableCall, providerGenerate,
      orderedProviders, trippedState, offlineProvider, List.range', List.filter]

/-- Claim C1 (amended): `generate` performs no up-front circuit-breaker
check.  With the counter at or above the threshold the call attempts
providers exactly as it would with a zero counter (same trace, and any
successful outcome carries over); only when the call itself ends with
every provider exhausted and a recorded last error does it fail with the
circuit-breaker error, incrementing the counter past the threshold. -/
theorem claim1_no_precheck (st : ClientState) (prompt : String)
    (h : st.circuitBreakerThreshold ≤ st.failureCount) :
    (generate st prompt).trace = (generate { st with failureCount := 0 } prompt).trace
    ∧ (∀ r, (generate { st with failureCount := 0 } prompt).outcome = .ok r →
        (generate st prompt).outcome = .ok r)
    ∧ ((runProviders prompt st.maxRetries (orderedProviders st) none).2.1 = none →
        ∀ e, (runProviders prompt st.maxRetries (orderedProviders st) none).2.2 = some e →
          (generate st prompt).outcome = .error .circuitOpen
          ∧ (generate st prompt).failureCount = st.failureCount + 1) := by
  have hrun : runProviders prompt ({ st with failureCount := 0 } : ClientState).maxRetries
      (orderedProviders { st with failureCount := 0 }) none
      = runProviders prompt st.maxRetries (orderedProviders st) none := rfl
  refine ⟨?_, ?_, ?_⟩
  · rw [generate_trace, generate_trace, hrun]
  · intro r hr
    simp only [generate, hrun] at hr ⊢
    cases hres : (runProviders prompt st.maxRetries (orderedProviders st) none).2.1 with
    | some r' =>
      rw [hres] at hr
      simpa using hr
    | none =>
      rw [hres] at hr
      cases hle : (runProviders prompt st.maxRetries (orderedProviders st) none).2.2 with
      | some e => rw [hle] at hr; dsimp only at hr; revert hr; split <;> simp
      | none => rw [hle] at hr; simp at hr
  · intro h1 e h2
    rw [generate_exhausted st prompt e h1 h2]
    have : st.circuitBreakerThreshold ≤ st.failureCount + 1 := by omega
    simp [this]

/-- Witness for claim C1's amended theorem at the concrete tripped state. -/
theorem claim1_witness :
    (generate trippedState "hi").trace
      = (generate { trippedState with failureCount := 0 } "hi").trace
    ∧ (∀ r, (generate { trippedState with failureCount := 0 } "hi").outcome = .ok r →
        (generate trippedState "hi").outcome = .ok r) :=
  ⟨(claim1_no_precheck trippedState "hi" (by decide)).1,
    (claim1_no_precheck trippedState "hi" (by decide)).2.1⟩

/-! ### Claim C2 -/

/-- Claim C2, formalised as stated: a fully-exhausted call increments the
counter once and surfaces the last concrete provider error.  This closed
counterexample refutes the error half: in `exhaustState` (threshold 1) the
single provider exhausts its one retry with the error `boom`, the counter
is incremented once, but the surfaced error is the synthetic
circuit-breaker error, not the provider error. -/
theorem claim2_counterexample :
    (runProviders "hi" exhaustState.maxRetries (orderedProviders exhaustState) none).2.1 = none
    ∧ (runProviders "hi" exhaustState.maxRetries (orderedProviders exhaustState) none).2.2
        = some (.generic "boom")
    ∧ (generate exhaustState "hi").failureCount = exhaustState.failureCount + 1
    ∧ (generate exhaustState "hi").outcome = .error .circuitOpen
    ∧ (Except.error GenError.circuitOpen : Except GenError LLMResult)
        ≠ .error (.provider (.generic "boom")) := by
  refine ⟨?_, ?_, ?_, ?_, by decide⟩ <;>
    simp [generate, runProviders, runAttempts, retryableCall, providerGenerate,
      orderedProviders, exhaustState, alwaysFailProvider, List.range', List.filter]

/-- Claim C2 (amended): when the provider loop of a `generate` call ends
with no success and a recorded last error, the consecutive-failure counter
is incremented by exactly one for the whole call, and the surfaced error
is that last concrete provider error when the incremented counter is still
below the threshold — but the synthetic circuit-breaker error once it
reaches the threshold. -/
theorem claim2_exhaustion (st : ClientState) (prompt : String) (e : LLMFailure)
    (h1 : (runProviders prompt st.maxRetries (orderedProviders st) none).2.1 = none)
    (h2 : (runProviders prompt st.maxRetries (orderedProviders st) none).2.2 = some e) :
    (generate st prompt).failureCount = st.failureCount + 1
    ∧ (generate st prompt).outcome =
        .error (if st.circuitBreakerThreshold ≤ st.failureCount + 1 then .circuitOpen
          else .provider e) := by
  rw [generate_exhausted st prompt e h1 h2]
  exact ⟨rfl, rfl⟩

/-- Witness for claim C2's amended theorem: below the threshold the
surfaced error is the provider's own last error. -/
theorem claim2_witness :
    (generate belowThresholdState "hi").failureCount = 1
    ∧ (generate belowThresholdState "hi").outcome = .error (.provider (.generic "boom")) := by
  have h := claim2_exhaustion belowThresholdState "hi" (.generic "boom")
    (by simp [runProviders, runAttempts, retryableCall, providerGenerate,
      orderedProviders, belowThresholdState, alwaysFailProvider, List.range', List.filter])
    (by simp [runProviders, runAttempts, retryableCall, providerGenerate,
      orderedProviders, belowThresholdState, alwaysFailProvider, List.range', List.filter])
  simpa using h

/-! ### Claim C5 -/

/-- Claim C5 (confirmed): in a constructed client the attempt order is the
configured primary provider first, followed by all other configured
providers in registration order; the offline provider is always present
in the attempt order, and is last whenever it is not the configured
primary. -/
theorem claim5_provider_order (explicit : List Provider) (s : SettingsModel)
    (netO netL : String → ℕ → CallOutcome) :
    offlineProvider ∈ orderedProviders (mkClient explicit s netO netL)
    ∧ (s.llmPrimary ≠ "offline" →
        (orderedProviders (mkClient explicit s netO netL)).getLast? = some offlineProvider)
    ∧ (∀ pre p post, (mkClient explicit s netO netL).providers = pre ++ p :: post →
        p.name = s.llmPrimary → (∀ q ∈ pre ++ post, q.name ≠ s.llmPrimary) →
        orderedProviders (mkClient explicit s netO netL) = p :: (pre ++ post)) := by
  refine ⟨?_, ?_, ?_⟩
  · exact mem_orderedProviders _ _ (by
      simp [mkClient, mkProviderList])
  · intro hprim
    have hpn : (mkClient explicit s netO netL).primaryName = s.llmPrimary := rfl
    show ((mkClient explicit s netO netL).providers.filter _
        ++ (mkClient explicit s netO netL).providers.filter _).getLast? = _
    simp only [hpn]
    have hsplit : (mkClient explicit s netO netL).providers
        = (if explicit.isEmpty then
            (if s.openaiApiKey ≠ "" then [openAIProvider s.openaiApiKey netO] else [])
              ++ (if s.ollamaHost ≠ "" then [ollamaProvider s.ollamaHost netL] else [])
          else explicit) ++ [offlineProvider] := rfl
    rw [hsplit, List.filter_append, List.filter_append]
    have hb : (offlineProvider.name == s.llmPrimary) = false :=
      beq_eq_false_iff_ne.mpr (Ne.symm hprim)
    have h1 : List.filter (fun p => p.name != s.llmPrimary) [offlineProvider]
        = [offlineProvider] := by
      simp [List.filter, bne, hb]
    have h2 : List.filter (fun p => p.name == s.llmPrimary) [offlineProvider] = [] := by
      simp [List.filter, hb]
    rw [h2, h1, List.getLast?_append, List.getLast?_concat]
    rfl
  · intro pre p post heq hname hothers
    have hpn : (mkClient explicit s netO netL).primaryName = s.llmPrimary := rfl
    show (mkClient explicit s netO netL).providers.filter _
        ++ (mkClient explicit s netO netL).providers.filter _ = _
    simp only [hpn]
    rw [heq, List.filter_append, List.filter_append, List.filter_cons, List.filter_cons]
    have hpre1 : pre.filter (fun q => q.name == s.llmPrimary) = [] :=
      List.filter_eq_nil_iff.mpr (fun q hq => by
        simp [hothers q (List.mem_append_left _ hq)])
    have hpost1 : post.filter (fun q => q.name == s.llmPrimary) = [] :=
      List.filter_eq_nil_iff.mpr (fun q hq => by
        simp [hothers q (List.mem_append_right _ hq)])
    have hpre2 : pre.filter (fun q => q.name != s.llmPrimary) = pre :=
      List.filter_eq_self.mpr (fun q hq => by
        simp [hothers q (List.mem_append_left _ hq)])
    have hpost2 : post.filter (fun q => q.name != s.llmPrimary) = post :=
      List.filter_eq_self.mpr (fun q hq => by
        simp [hothers q (List.mem_append_right _ hq)])
    simp [hpre1, hpost1, hpre2, hpost2, hname]

/-- Witness for claim C5 at a concrete client: one explicit local provider
that is the configured primary, with the offline provider appended last. -/
theorem claim5_witness :
    offlineProvider ∈ orderedProviders (mkClient
      [ollamaProvider "http://h" (fun _ _ => .err "e")]
      ⟨"", "http://h", "ollama", 3, 5⟩ (fun _ _ => .err "e") (fun _ _ => .err "e"))
    ∧ (orderedProviders (mkClient [ollamaProvider "http://h" (fun _ _ => .err "e")]
        ⟨"", "http://h", "ollama", 3, 5⟩ (fun _ _ => .err "e")
        (fun _ _ => .err "e"))).getLast? = some offlineProvider
    ∧ orderedProviders (mkClient [ollamaProvider "http://h" (fun _ _ => .err "e")]
        ⟨"", "http://h", "ollama", 3, 5⟩ (fun _ _ => .err "e") (fun _ _ => .err "e"))
      = ollamaProvider "http://h" (fun _ _ => .err "e") :: ([] ++ [offlineProvider]) := by
  have h := claim5_provider_order [ollamaProvider "http://h" (fun _ _ => .err "e")]
    ⟨"", "http://h", "ollama", 3, 5⟩ (fun _ _ => .err "e") (fun _ _ => .err "e")
  refine ⟨h.1, h.2.1 (by decide), h.2.2 [] _ [offlineProvider] rfl rfl ?_⟩
  intro q hq
  simp only [List.nil_append, List.mem_singleton] at hq
  subst hq
  decide

/-! ### Claim C6 -/

/-- Claim C6 (confirmed): a provider whose static configuration is absent
(missing API key for the hosted provider, missing host for the local one)
is skipped before any network call — its retry loop produces no attempt
and no sleep event and records only a `ProviderNotConfigured` last error.
In the spec's concrete scenario `[Hosted(unconfigured), Local(always
errors), Offline]` with `maxRetries = 2`, a single `generate` call returns
the offline result after exactly two attempts against the local provider
and none against the hosted one, and the failure counter stays zero. -/
theorem claim6_unconfigured_skip :
    (∀ (p : Provider) (prompt : String) (maxR : ℕ) (le : Option LLMFailure),
      1 ≤ maxR → (p.kind = .openai ∨ p.kind = .ollama) → p.config = "" →
      ∃ m, runAttempts p prompt (List.range' 1 maxR) le
        = ([], none, some (.notConfigured m)))
    ∧ (∀ (netO : String → ℕ → CallOutcome) (prompt : String),
      generate (scenarioState netO) prompt =
        ⟨[Event.attempt "ollama" 1, Event.sleep 2, Event.attempt "ollama" 2, Event.sleep 4,
          Event.attempt "offline" 1], .ok (offlineGenerate prompt), 0⟩
      ∧ countAttempts "ollama" (generate (scenarioState netO) prompt).trace = 2
      ∧ countAttempts "openai" (generate (scenarioState netO) prompt).trace = 0) := by
  constructor
  · intro p prompt maxR le hmax hkind hc
    obtain ⟨m', rfl⟩ : ∃ m', maxR = m' + 1 := ⟨maxR - 1, by omega⟩
    have hcons : List.range' 1 (m' + 1) = 1 :: List.range' 2 m' := rfl
    rcases hkind with hk | hk
    · exact ⟨"OpenAI provider requires an API key", by
        rw [hcons]
        exact runAttempts_skip p prompt _ 1 _ le (by simp [retryableCall, hk, hc])⟩
    · refine ⟨"Ollama provider requires a host", by
        rw [hcons]
        refine runAttempts_skip p prompt _ 1 _ le ?_
        have hk2 : p.kind ≠ ProviderKind.openai := by rw [hk]; decide
        simp [retryableCall, hk, hk2, hc]⟩
  · intro netO prompt
    have hgen : generate (scenarioState netO) prompt =
        ⟨[Event.attempt "ollama" 1, Event.sleep 2, Event.attempt "ollama" 2, Event.sleep 4,
          Event.attempt "offline" 1], .ok (offlineGenerate prompt), 0⟩ := by
      simp [generate, runProviders, runAttempts, retryableCall, providerGenerate,
        orderedProviders, scenarioState, mkClient, mkProviderList, offlineProvider,
        openAIProvider, ollamaProvider, List.range', List.filter]
    refine ⟨hgen, ?_, ?_⟩ <;> rw [hgen] <;>
      simp [countAttempts, isAttemptFor, List.filter]

/-- Witness for claim C6: the skip conclusion at a concrete unconfigured
hosted provider, and the scenario conclusion at a concrete network
behaviour. -/
theorem claim6_witness :
    (∃ m, runAttempts (openAIProvider "" (fun _ _ => .err "x")) "q" (List.range' 1 2) none
      = ([], none, some (.notConfigured m)))
    ∧ generate (scenarioState (fun _ _ => .err "x")) "Hello world" =
        ⟨[Event.attempt "ollama" 1, Event.sleep 2, Event.attempt "ollama" 2, Event.sleep 4,
          Event.attempt "offline" 1], .ok (offlineGenerate "Hello world"), 0⟩ :=
  ⟨claim6_unconfigured_skip.1 (openAIProvider "" (fun _ _ => .err "x")) "q" 2 none
      (by decide) (Or.inl rfl) rfl,
    (claim6_unconfigured_skip.2 (fun _ _ => .err "x") "Hello world").1⟩

/-! ### Claim C7 -/

/-- Claim C7 (confirmed): a provider that raises a transient error on
every attempt is retried `maxRetries` times with attempt numbers starting
at 1, a sleep of `2 ** attempt` time units follows each failed attempt,
and only after those retries are exhausted does the loop move on to the
remaining providers, carrying the last attempt's error. -/
theorem claim7_retry_backoff (p : Provider) (rest : List Provider) (prompt : String)
    (maxR : ℕ) (le : Option LLMFailure) (errF : ℕ → String)
    (hmax : 1 ≤ maxR)
    (hfail : ∀ a, 1 ≤ a → a ≤ maxR →
      retryableCall p prompt a = ([.attempt p.name a], .err (errF a))) :
    runProviders prompt maxR (p :: rest) le =
      (((List.range' 1 maxR).map
          (fun a => [Event.attempt p.name a, Event.sleep (2 ^ a)])).flatten
        ++ (runProviders prompt maxR rest (some (.generic (errF maxR)))).1,
        (runProviders prompt maxR rest (some (.generic (errF maxR)))).2.1,
        (runProviders prompt maxR rest (some (.generic (errF maxR)))).2.2) := by
  have hin := runAttempts_err_all p prompt errF maxR 1 le hmax
    (fun a h1 h2 => hfail a h1 (by omega))
  have harg : 1 + maxR - 1 = maxR := by omega
  rw [harg] at hin
  simp only [runProviders, hin]

/-- Witness for claim C7: the always-failing provider with two retries and
the offline provider after it. -/
theorem claim7_witness :
    runProviders "x" 2 [alwaysFailProvider, offlineProvider] none =
      (((List.range' 1 2).map
          (fun a => [Event.attempt alwaysFailProvider.name a, Event.sleep (2 ^ a)])).flatten
        ++ (runProviders "x" 2 [offlineProvider] (some (.generic "boom"))).1,
        (runProviders "x" 2 [offlineProvider] (some (.generic "boom"))).2.1,
        (runProviders "x" 2 [offlineProvider] (some (.generic "boom"))).2.2) :=
  claim7_retry_backoff alwaysFailProvider [offlineProvider] "x" 2 none (fun _ => "boom")
    (by decide) (fun a _ _ => rfl)

/-! ### Claim C8 -/

/-- Claim C8 (confirmed): a `generate` call that returns a result leaves
the consecutive-failure counter at zero; and on the first success of the
call — at whatever provider position and attempt number it occurs, all
earlier providers having produced no result and all earlier attempts of
that provider having failed — the call returns that result immediately:
the trace ends at the successful attempt, so no later attempt of that
provider and no further provider is ever tried, and a following failing
streak starts counting from zero again. -/
theorem claim8_success_resets (st : ClientState) (prompt : String) :
    (∀ r, (generate st prompt).outcome = .ok r → (generate st prompt).failureCount = 0)
    ∧ (∀ (ps₁ : List Provider) (p : Provider) (ps₂ : List Provider) (k : ℕ)
        (r : LLMResult) (errF : ℕ → String),
        orderedProviders st = ps₁ ++ p :: ps₂ →
        (runProviders prompt st.maxRetries ps₁ none).2.1 = none →
        1 ≤ k → k ≤ st.maxRetries →
        (∀ a, 1 ≤ a → a < k →
          retryableCall p prompt a = ([Event.attempt p.name a], .err (errF a))) →
        retryableCall p prompt k = ([Event.attempt p.name k], .ok r) →
        generate st prompt =
          ⟨(runProviders prompt st.maxRetries ps₁ none).1
              ++ (((List.range' 1 (k - 1)).map
                  (fun a => [Event.attempt p.name a, Event.sleep (2 ^ a)])).flatten
                ++ [Event.attempt p.name k]),
            .ok r, 0⟩) := by
  constructor
  · exact fun r h => generate_ok_resets st prompt r h
  · intro ps₁ p ps₂ k r errF horder hpre hk1 hk2 hfail hok
    obtain ⟨le₁, hinner⟩ := runAttempts_first_ok p prompt errF r st.maxRetries 1 k
      ((runProviders prompt st.maxRetries ps₁ none).2.2) hk1 (by omega) hfail hok
    have hmid : runProviders prompt st.maxRetries (p :: ps₂)
        ((runProviders prompt st.maxRetries ps₁ none).2.2)
        = (((List.range' 1 (k - 1)).map
            (fun a => [Event.attempt p.name a, Event.sleep (2 ^ a)])).flatten
          ++ [Event.attempt p.name k], some r, le₁) := by
      simp only [runProviders]
      rw [hinner]
    have hrun : runProviders prompt st.maxRetries (orderedProviders st) none
        = ((runProviders prompt st.maxRetries ps₁ none).1
            ++ (((List.range' 1 (k - 1)).map
                (fun a => [Event.attempt p.name a, Event.sleep (2 ^ a)])).flatten
              ++ [Event.attempt p.name k]), some r, le₁) := by
      rw [horder, runProviders_append prompt st.maxRetries ps₁ (p :: ps₂) none hpre, hmid]
    have h := generate_of_run_ok st prompt r (by rw [hrun])
    rw [h, hrun]

/-- Witness for claim C8 at a state whose first success is the second
attempt of the second provider: the full concrete trace ends exactly at
that attempt. -/
theorem claim8_witness :
    generate firstSuccessState "hi" =
      ⟨[Event.attempt "flaky" 1, Event.sleep 2, Event.attempt "flaky" 2, Event.sleep 4,
        Event.attempt "recovering" 1, Event.sleep 2, Event.attempt "recovering" 2],
        .ok (offlineGenerate "hi"), 0⟩ := by
  have h := (claim8_success_resets firstSuccessState "hi").2
    [alwaysFailProvider] recoveringProvider [] 2 (offlineGenerate "hi") (fun _ => "first-try")
    (by simp [orderedProviders, firstSuccessState, List.filter,
      alwaysFailProvider, recoveringProvider])
    (by simp [runProviders, runAttempts, retryableCall, providerGenerate,
      firstSuccessState, alwaysFailProvider, List.range'])
    (by decide) (by decide)
    (fun a h1 h2 => by
      have ha : a = 1 := by omega
      subst ha
      rfl)
    rfl
  rw [h]
  simp [runProviders, runAttempts, retryableCall, providerGenerate,
    firstSuccessState, alwaysFailProvider, recoveringProvider, List.range']

/-! ### Claim C9 -/

/-- Claim C9 (confirmed): the offline provider never fails — every call to
it through `_retryable_call` returns a result — and that result has
provider name `offline`, text equal to the fixed marker string followed by
the first 400 characters of the prompt, zero cost, and token counts
`max(1, wordCount(prompt))` and `max(1, wordCount(text))`. -/
theorem claim9_offline_provider (prompt : String) (attempt : ℕ) :
    retryableCall offlineProvider prompt attempt
      = ([Event.attempt "offline" attempt], .ok (offlineGenerate prompt))
    ∧ (offlineGenerate prompt).provider = "offline"
    ∧ (offlineGenerate prompt).cost = 0
    ∧ (offlineGenerate prompt).content =
        "[offline-response]\nThis environment is running in offline mode. The following prompt was received:\n"
          ++ prompt.take 400
    ∧ (offlineGenerate prompt).promptTokens = max 1 (pySplit prompt).length
    ∧ (offlineGenerate prompt).completionTokens
        = max 1 (pySplit (offlineGenerate prompt).content).length :=
  ⟨retryableCall_offlineKind offlineProvider rfl prompt attempt, rfl, rfl, rfl, rfl, rfl⟩

/-! ### Claim C10 -/

/-- Claim C10, formalised as stated: every `generate` on a constructed
client returns a result and never raises, for every prompt.  This closed
counterexample refutes it: `config.py` puts no lower bound on
`llm_max_retries`, and with `LLM_MAX_RETRIES=0` the inner loop of
`generate` never runs, `last_error` stays unset, and the call raises the
no-providers-configured error for every prompt — even though the offline
provider was appended as always. -/
theorem claim10_counterexample :
    (mkClient [] ⟨"", "", "openai", 0, 5⟩ (fun _ _ => .err "x")
        (fun _ _ => .err "x")).providers.getLast? = some offlineProvider
    ∧ (generate (mkClient [] ⟨"", "", "openai", 0, 5⟩ (fun _ _ => .err "x")
        (fun _ _ => .err "x")) "Hello").outcome = .error .noProviders := by
  constructor
  · exact List.getLast?_concat _
  · simp only [generate]
    rw [show (mkClient [] ⟨"", "", "openai", 0, 5⟩ (fun _ _ => .err "x")
        (fun _ _ => .err "x")).maxRetries = 0 from rfl]
    rw [runProviders_zero_retries "Hello" _ none]

/-- Claim C10 (amended): the constructor appends the offline provider to
every provider list — also when an explicit list is supplied — and since
that provider's `generate` is total, every `generate` call on a
constructed client returns a result with the counter left at zero
whenever at least one retry is configured; with a configured retry count
of zero the inner loop never runs and every call instead raises the
no-providers-configured error. -/
theorem claim10_generate_total (explicit : List Provider) (s : SettingsModel)
    (netO netL : String → ℕ → CallOutcome) (prompt : String) :
    (mkClient explicit s netO netL).providers.getLast? = some offlineProvider
    ∧ (1 ≤ s.llmMaxRetries →
        ∃ r, (generate (mkClient explicit s netO netL) prompt).outcome = .ok r
          ∧ (generate (mkClient explicit s netO netL) prompt).failureCount = 0)
    ∧ (s.llmMaxRetries = 0 →
        (generate (mkClient explicit s netO netL) prompt).outcome
          = .error .noProviders) := by
  refine ⟨?_, ?_, ?_⟩
  · show (mkProviderList explicit s netO netL).getLast? = some offlineProvider
    unfold mkProviderList
    exact List.getLast?_concat _
  · intro hmax
    have hmem : offlineProvider ∈ orderedProviders (mkClient explicit s netO netL) :=
      mem_orderedProviders _ _ (by simp [mkClient, mkProviderList])
    obtain ⟨r, tr, le', hrun⟩ := runProviders_offline_total prompt
      (mkClient explicit s netO netL).maxRetries hmax
      (orderedProviders (mkClient explicit s netO netL)) none
      ⟨offlineProvider, hmem, rfl⟩
    have h := generate_of_run_ok (mkClient explicit s netO netL) prompt r (by rw [hrun])
    exact ⟨r, by rw [h], by rw [h]⟩
  · intro h0
    simp only [generate]
    rw [show (mkClient explicit s netO netL).maxRetries = s.llmMaxRetries from rfl, h0]
    rw [runProviders_zero_retries prompt _ none]

/-- Witness for claim C10's amended theorem: both retry-count regimes at
concrete settings with an empty explicit list and absent optional
settings. -/
theorem claim10_witness :
    (∃ r, (generate (mkClient [] ⟨"", "", "openai", 1, 1⟩ (fun _ _ => .err "x")
          (fun _ _ => .err "x")) "Hello world").outcome = .ok r
        ∧ (generate (mkClient [] ⟨"", "", "openai", 1, 1⟩ (fun _ _ => .err "x")
            (fun _ _ => .err "x")) "Hello world").failureCount = 0)
    ∧ (generate (mkClient [] ⟨"", "", "openai", 0, 1⟩ (fun _ _ => .err "x")
        (fun _ _ => .err "x")) "Hello world").outcome = .error .noProviders :=
  ⟨(claim10_generate_total [] ⟨"", "", "openai", 1, 1⟩ (fun _ _ => .err "x")
      (fun _ _ => .err "x") "Hello world").2.1 (by decide),
    (claim10_generate_total [] ⟨"", "", "openai", 0, 1⟩ (fun _ _ => .err "x")
      (fun _ _ => .err "x") "Hello world").2.2 rfl⟩

/-! ### Retrieval: arithmetic facts about the score components -/

/-- The shared-vocabulary numerator is symmetric. -/
theorem numQD_comm (q d : List String) : numQD q d = numQD d q := by
  unfold numQD
  rw [Finset.inter_comm]
  exact Finset.sum_congr rfl (fun t _ => Nat.mul_comm _ _)

/-- A non-empty token list has positive squared norm. -/
theorem normSq_pos (l : List String) (h : l ≠ []) : 0 < normSq l := by
  obtain ⟨a, ha⟩ := List.exists_mem_of_ne_nil l h
  have hmem : a ∈ l.toFinset := List.mem_toFinset.mpr ha
  have hcount : 0 < l.count a := List.count_pos_iff.mpr ha
  calc 0 < l.count a ^ 2 := by positivity
    _ ≤ ∑ t ∈ l.toFinset, l.count t ^ 2 :=
        @Finset.single_le_sum String ℕ _ (fun t => l.count t ^ 2) l.toFinset
          (fun t _ => Nat.zero_le _) a hmem

/-- A positive numerator forces both token lists to be non-empty. -/
theorem numQD_pos_ne_nil (q d : List String) (h : 0 < numQD q d) :
    q ≠ [] ∧ d ≠ [] := by
  constructor
  · rintro rfl
    simp [numQD] at h
  · rintro rfl
    simp [numQD] at h

/-- Cauchy–Schwarz for the term-count vectors: the squared numerator is at
most the product of the squared norms. -/
theorem numQD_sq_le (q d : List String) :
    numQD q d ^ 2 ≤ normSq q * normSq d := by
  have hcz : ∀ (l : List String) (t : String), t ∉ l.toFinset → l.count t = 0 := by
    intro l t ht
    rw [List.count_eq_zero]
    exact fun hc => ht (List.mem_toFinset.mpr hc)
  have hnum : numQD q d = ∑ t ∈ q.toFinset ∪ d.toFinset, q.count t * d.count t := by
    unfold numQD
    refine Finset.sum_subset Finset.inter_subset_union (fun t ht hnt => ?_)
    rw [Finset.mem_inter, not_and_or] at hnt
    rcases hnt with h | h
    · simp [hcz q t h]
    · simp [hcz d t h]
  have hq : normSq q = ∑ t ∈ q.toFinset ∪ d.toFinset, q.count t ^ 2 := by
    unfold normSq
    exact Finset.sum_subset Finset.subset_union_left
      (fun t _ hnt => by simp [hcz q t hnt])
  have hd : normSq d = ∑ t ∈ q.toFinset ∪ d.toFinset, d.count t ^ 2 := by
    unfold normSq
    exact Finset.sum_subset Finset.subset_union_right
      (fun t _ hnt => by simp [hcz d t hnt])
  rw [hnum, hq, hd]
  exact Finset.sum_mul_sq_le_sq_mul_sq _ _ _

/-- The idealised score in its main branch, with both guards discharged:
non-empty token lists have positive norms. -/
theorem cosineSim_eq_div (q d : List String) (hq : q ≠ []) (hd : d ≠ []) :
    cosineSim q d
      = (numQD q d : ℝ) / (Real.sqrt (normSq q) * Real.sqrt (normSq d)) := by
  have h1 : (0 : ℝ) < Real.sqrt (normSq q) :=
    Real.sqrt_pos.mpr (by exact_mod_cast normSq_pos q hq)
  have h2 : (0 : ℝ) < Real.sqrt (normSq d) :=
    Real.sqrt_pos.mpr (by exact_mod_cast normSq_pos d hd)
  unfold cosineSim
  rw [if_neg (by simp [hq, hd]), if_neg (not_or.mpr ⟨h1.ne', h2.ne'⟩)]

/-- The score is positive exactly when the integer numerator is: the
filter `score > 0` of `search` and the decidable test `0 < num` agree. -/
theorem cosineSim_pos_iff (q d : List String) :
    0 < cosineSim q d ↔ 0 < numQD q d := by
  constructor
  · intro h
    by_contra hn
    have h0 : numQD q d = 0 := by omega
    have hz : cosineSim q d = 0 := by
      unfold cosineSim
      split
      · rfl
      · split
        · rfl
        · simp [h0]
    rw [hz] at h
    exact lt_irrefl 0 h
  · intro h
    obtain ⟨hq, hd⟩ := numQD_pos_ne_nil q d h
    rw [cosineSim_eq_div q d hq hd]
    have h1 : (0 : ℝ) < Real.sqrt (normSq q) :=
      Real.sqrt_pos.mpr (by exact_mod_cast normSq_pos q hq)
    have h2 : (0 : ℝ) < Real.sqrt (normSq d) :=
      Real.sqrt_pos.mpr (by exact_mod_cast normSq_pos d hd)
    exact div_pos (by exact_mod_cast h) (mul_pos h1 h2)

/-- Scores never exceed 1 (Cauchy–Schwarz). -/
theorem cosineSim_le_one (q d : List String) : cosineSim q d ≤ 1 := by
  by_cases hq : q = []
  · unfold cosineSim
    rw [if_pos (Or.inr hq)]
    norm_num
  by_cases hd : d = []
  · unfold cosineSim
    rw [if_pos (Or.inl hd)]
    norm_num
  rw [cosineSim_eq_div q d hq hd]
  have h1 : (0 : ℝ) < Real.sqrt (normSq q) :=
    Real.sqrt_pos.mpr (by exact_mod_cast normSq_pos q hq)
  have h2 : (0 : ℝ) < Real.sqrt (normSq d) :=
    Real.sqrt_pos.mpr (by exact_mod_cast normSq_pos d hd)
  rw [div_le_one (mul_pos h1 h2), ← Real.sqrt_mul (by positivity) ((normSq d : ℕ) : ℝ)]
  rw [show ((normSq q : ℕ) : ℝ) * ((normSq d : ℕ) : ℝ) = ((normSq q * normSq d : ℕ) : ℝ) by
    push_cast
    ring]
  rw [Real.le_sqrt (Nat.cast_nonneg _) (Nat.cast_nonneg _)]
  exact_mod_cast numQD_sq_le q d

/-- Comparing two scores against the same query is the integer
cross-multiplied comparison of squared numerators and squared norms. -/
theorem cosineSim_le_cosineSim_iff (q da db : List String)
    (hq : q ≠ []) (ha : da ≠ []) (hb : db ≠ []) :
    cosineSim q da ≤ cosineSim q db ↔
      numQD q da ^ 2 * normSq db ≤ numQD q db ^ 2 * normSq da := by
  have hQ : (0 : ℝ) < Real.sqrt (normSq q) :=
    Real.sqrt_pos.mpr (by exact_mod_cast normSq_pos q hq)
  have hDa : (0 : ℝ) < Real.sqrt (normSq da) :=
    Real.sqrt_pos.mpr (by exact_mod_cast normSq_pos da ha)
  have hDb : (0 : ℝ) < Real.sqrt (normSq db) :=
    Real.sqrt_pos.mpr (by exact_mod_cast normSq_pos db hb)
  rw [cosineSim_eq_div q da hq ha, cosineSim_eq_div q db hq hb]
  rw [div_le_div_iff₀ (mul_pos hQ hDa) (mul_pos hQ hDb)]
  rw [show (numQD q da : ℝ) * (Real.sqrt (normSq q) * Real.sqrt (normSq db))
      = Real.sqrt (normSq q) * ((numQD q da : ℝ) * Real.sqrt (normSq db)) by ring]
  rw [show (numQD q db : ℝ) * (Real.sqrt (normSq q) * Real.sqrt (normSq da))
      = Real.sqrt (normSq q) * ((numQD q db : ℝ) * Real.sqrt (normSq da)) by ring]
  rw [mul_le_mul_left hQ]
  rw [show ((numQD q da : ℝ) * Real.sqrt (normSq db)
        ≤ (numQD q db : ℝ) * Real.sqrt (normSq da))
      ↔ (((numQD q da : ℝ) * Real.sqrt (normSq db)) ^ 2
        ≤ ((numQD q db : ℝ) * Real.sqrt (normSq da)) ^ 2) from
    (pow_le_pow_iff_left₀ (by positivity) (by positivity) two_ne_zero).symm]
  rw [mul_pow, mul_pow, Real.sq_sqrt (by positivity), Real.sq_sqrt (by positivity)]
  constructor
  · intro h
    exact_mod_cast h
  · intro h
    exact_mod_cast h

/-- Two scores against the same query are equal exactly when the integer
cross-multiplied quantities are. -/
theorem cosineSim_eq_cosineSim_iff (q da db : List String)
    (hq : q ≠ []) (ha : da ≠ []) (hb : db ≠ []) :
    cosineSim q da = cosineSim q db ↔
      numQD q da ^ 2 * normSq db = numQD q db ^ 2 * normSq da := by
  rw [le_antisymm_iff, le_antisymm_iff,
    cosineSim_le_cosineSim_iff q da db hq ha hb,
    cosineSim_le_cosineSim_iff q db da hq hb ha]

/-! ### Claim C4 -/

/-- Claim C4 (confirmed): the cosine-similarity scoring function over
term-count vectors is symmetric — scoring A against B yields the same
value as scoring B against A. -/
theorem claim4_cosine_symmetric (A B : List String) :
    cosineSim A B = cosineSim B A := by
  unfold cosineSim
  by_cases h1 : B = [] ∨ A = []
  · rw [if_pos h1, if_pos (Or.symm h1)]
  · rw [if_neg h1, if_neg (fun h => h1 (Or.symm h))]
    by_cases h2 : Real.sqrt (normSq A) = 0 ∨ Real.sqrt (normSq B) = 0
    · rw [if_pos h2, if_pos (Or.symm h2)]
    · rw [if_neg h2, if_neg (fun h => h2 (Or.symm h))]
      rw [numQD_comm, mul_comm]

/-! ### Retrieval: the sort key and the stable descending sort -/

/-- The rational squared key compares like the integer cross-multiplied
test. -/
theorem keyQ_le_iff (a b : Scored) (ha : 0 < a.dn) (hb : 0 < b.dn) :
    keyQ a ≤ keyQ b ↔ a.num ^ 2 * b.dn ≤ b.num ^ 2 * a.dn := by
  unfold keyQ
  rw [div_le_div_iff₀ (by exact_mod_cast ha) (by exact_mod_cast hb)]
  constructor
  · intro h
    exact_mod_cast h
  · intro h
    exact_mod_cast h

/-- The decidable comparison used by the sort agrees with the rational
key order. -/
theorem scoreGe_iff_keyQ (a b : Scored) (ha : 0 < a.dn) (hb : 0 < b.dn) :
    scoreGe a b = true ↔ keyQ b ≤ keyQ a := by
  unfold scoreGe
  rw [decide_eq_true_eq, keyQ_le_iff b a hb ha]

/-- For entries produced against the same query, key order is score
order. -/
theorem keyQ_le_iff_score (query : String) (a b : Scored)
    (hga : GoodEntry query a) (hgb : GoodEntry query b) :
    keyQ a ≤ keyQ b ↔ scoreOf query a ≤ scoreOf query b := by
  obtain ⟨hna, hda, hpa⟩ := hga
  obtain ⟨hnb, hdb, hpb⟩ := hgb
  have hq : tokenise query ≠ [] := (numQD_pos_ne_nil _ _ (hna ▸ hpa)).1
  have hta : tokenise a.chunk.text ≠ [] := (numQD_pos_ne_nil _ _ (hna ▸ hpa)).2
  have htb : tokenise b.chunk.text ≠ [] := (numQD_pos_ne_nil _ _ (hnb ▸ hpb)).2
  rw [keyQ_le_iff a b (hda ▸ normSq_pos _ hta) (hdb ▸ normSq_pos _ htb)]
  unfold scoreOf
  rw [cosineSim_le_cosineSim_iff (tokenise query) _ _ hq hta htb]
  rw [hna, hnb, hda, hdb]

/-- Emission order of the stable descending sort, translated to the real
scores of the two entries: the later entry scores no higher, and on equal
scores the earlier entry has the smaller original index. -/
theorem entryRel_score (query : String) (a b : Scored)
    (hga : GoodEntry query a) (hgb : GoodEntry query b) (h : entryRel a b) :
    scoreOf query b ≤ scoreOf query a
    ∧ (scoreOf query a = scoreOf query b → a.idx < b.idx) := by
  have hab := keyQ_le_iff_score query a b hga hgb
  have hba := keyQ_le_iff_score query b a hgb hga
  rcases h with hlt | ⟨heq, hidx⟩
  · refine ⟨hba.mp hlt.le, fun hs => ?_⟩
    exact absurd (hab.mpr (le_of_eq hs)) (not_le.mpr hlt)
  · exact ⟨hba.mp (le_of_eq heq.symm), fun _ => hidx⟩

theorem insertScored_perm (a : Scored) (l : List Scored) :
    List.Perm (insertScored a l) (a :: l) := by
  induction l with
  | nil => exact List.Perm.refl _
  | cons b t ih =>
    show List.Perm (if scoreGe a b then a :: b :: t else b :: insertScored a t) (a :: b :: t)
    split
    · exact List.Perm.refl _
    · exact List.Perm.trans (List.Perm.cons b ih) (List.Perm.swap a b t)

theorem sortScored_perm (l : List Scored) : List.Perm (sortScored l) l := by
  induction l with
  | nil => exact List.Perm.refl _
  | cons a t ih =>
    exact List.Perm.trans (insertScored_perm a (sortScored t)) (List.Perm.cons a ih)

theorem mem_insertScored (x a : Scored) (l : List Scored) :
    x ∈ insertScored a l ↔ x = a ∨ x ∈ l := by
  rw [(insertScored_perm a l).mem_iff, List.mem_cons]

/-- Inserting a maximal-index entry into a sorted list keeps it sorted:
the entry is placed after every strictly greater key and before every
strictly smaller one, and ties resolve by its (larger) index. -/
theorem pairwise_insertScored (a : Scored) (t : List Scored)
    (ha : 0 < a.dn) (hall : ∀ b ∈ t, 0 < b.dn)
    (ht : t.Pairwise entryRel) (hidx : ∀ b ∈ t, a.idx < b.idx) :
    (insertScored a t).Pairwise entryRel := by
  induction t with
  | nil => simp [insertScored, entryRel]
  | cons b t ih =>
    have hb : 0 < b.dn := hall b (List.mem_cons_self b t)
    show (if scoreGe a b then a :: b :: t else b :: insertScored a t).Pairwise entryRel
    split
    case isTrue hge =>
      have hkey : keyQ b ≤ keyQ a := (scoreGe_iff_keyQ a b ha hb).mp hge
      refine List.Pairwise.cons ?_ ht
      intro c hc
      rcases List.mem_cons.mp hc with rfl | hc'
      · rcases lt_or_eq_of_le hkey with hlt | heq
        · exact Or.inl hlt
        · exact Or.inr ⟨heq.symm, hidx c (List.mem_cons_self c t)⟩
      · rcases (List.pairwise_cons.mp ht).1 c hc' with hlt | ⟨heq, _⟩
        · exact Or.inl (lt_of_lt_of_le hlt hkey)
        · have hca : keyQ c ≤ keyQ a := heq ▸ hkey
          rcases lt_or_eq_of_le hca with hlt2 | heq2
          · exact Or.inl hlt2
          · exact Or.inr ⟨heq2.symm, hidx c (List.mem_cons_of_mem b hc')⟩
    case isFalse hge =>
      have hkey : keyQ a < keyQ b :=
        lt_of_not_le (fun hle => hge ((scoreGe_iff_keyQ a b ha hb).mpr hle))
      refine List.Pairwise.cons ?_
        (ih (fun c hc => hall c (List.mem_cons_of_mem b hc))
          (List.pairwise_cons.mp ht).2
          (fun c hc => hidx c (List.mem_cons_of_mem b hc)))
      intro c hc
      rcases (mem_insertScored c a t).mp hc with rfl | hc'
      · exact Or.inl hkey
      · exact (List.pairwise_cons.mp ht).1 c hc'

/-- The stable descending sort of a list of positively-normed entries
with strictly increasing indices is sorted in emission order. -/
theorem pairwise_sortScored (l : List Scored)
    (hall : ∀ e ∈ l, 0 < e.dn)
    (hidx : l.Pairwise (fun a b => a.idx < b.idx)) :
    (sortScored l).Pairwise entryRel := by
  induction l with
  | nil => exact List.Pairwise.nil
  | cons a t ih =>
    have hmem : ∀ b ∈ sortScored t, b ∈ t := fun b hb => (sortScored_perm t).subset hb
    exact pairwise_insertScored a (sortScored t)
      (hall a (List.mem_cons_self a t))
      (fun b hb => hall b (List.mem_cons_of_mem a (hmem b hb)))
      (ih (fun e he => hall e (List.mem_cons_of_mem a he)) (List.pairwise_cons.mp hidx).2)
      (fun b hb => (List.pairwise_cons.mp hidx).1 b (hmem b hb))

/-! ### Retrieval: the scored-entry list -/

theorem enumFrom_fst_ge {α : Type} (l : List α) :
    ∀ (n : ℕ) (p : ℕ × α), p ∈ List.enumFrom n l → n ≤ p.1 := by
  induction l with
  | nil =>
    intro n p h
    simp [List.enumFrom] at h
  | cons a t ih =>
    intro n p h
    rcases List.mem_cons.mp h with rfl | h'
    · exact le_refl n
    · exact le_trans (Nat.le_succ n) (ih (n + 1) p h')

theorem enumFrom_pairwise_fst {α : Type} (l : List α) :
    ∀ (n : ℕ), (List.enumFrom n l).Pairwise (fun p q => p.1 < q.1) := by
  induction l with
  | nil => intro n; exact List.Pairwise.nil
  | cons a t ih =>
    intro n
    refine List.Pairwise.cons ?_ (ih (n + 1))
    intro q hq
    have := enumFrom_fst_ge t (n + 1) q hq
    omega

/-- Each entry of `scoredEntries` carries the score data of its own chunk
(with a positive numerator, since the score filter passed) and points back
at its chunk's position in the indexed list. -/
theorem mem_scoredEntries (chunks : List RAGChunk) (query : String) (e : Scored)
    (h : e ∈ scoredEntries chunks query) :
    GoodEntry query e ∧ chunks[e.idx]? = some e.chunk := by
  unfold scoredEntries at h
  obtain ⟨hmap, hfil⟩ := List.mem_filter.mp h
  obtain ⟨p, hp, rfl⟩ := List.mem_map.mp hmap
  obtain ⟨i, c⟩ := p
  refine ⟨⟨rfl, rfl, of_decide_eq_true hfil⟩, ?_⟩
  exact List.mk_mem_enum_iff_getElem?.mp hp

/-- The entries are produced in indexing order: indices strictly
increase along `scoredEntries`. -/
theorem scoredEntries_idx_pairwise (chunks : List RAGChunk) (query : String) :
    (scoredEntries chunks query).Pairwise (fun a b => a.idx < b.idx) := by
  unfold scoredEntries
  refine List.Pairwise.filter _ ?_
  rw [List.pairwise_map]
  exact enumFrom_pairwise_fst chunks 0

/-- Entries that pass the score filter have chunks with positive squared
norm. -/
theorem GoodEntry.dn_pos (query : String) (e : Scored) (h : GoodEntry query e) :
    0 < e.dn := by
  obtain ⟨hn, hd, hp⟩ := h
  have := (numQD_pos_ne_nil _ _ (hn ▸ hp)).2
  rw [hd]
  exact normSq_pos _ this

/-! ### Claim C3 -/

/-- Claim C3 (confirmed): for every query, indexed fragment set and
`topK`, `search` returns at most `topK` results; every returned entry has
a real score in `(0, 1]` and points back at its chunk in the index; and
the result list is sorted by score non-increasing with ties in original
indexing order. -/
theorem claim3_search_ranked (chunks : List RAGChunk) (query : String) (topK : ℕ) :
    (search chunks query topK).length ≤ topK
    ∧ (∀ e ∈ search chunks query topK,
        (0 < scoreOf query e ∧ scoreOf query e ≤ 1) ∧ chunks[e.idx]? = some e.chunk)
    ∧ (search chunks query topK).Pairwise (fun a b =>
        scoreOf query b ≤ scoreOf query a
        ∧ (scoreOf query a = scoreOf query b → a.idx < b.idx)) := by
  unfold search
  split
  · simp
  · refine ⟨List.length_take_le _ _, ?_, ?_⟩
    · intro e he
      have hmem : e ∈ scoredEntries chunks query :=
        (sortScored_perm (scoredEntries chunks query)).subset (List.take_subset _ _ he)
      obtain ⟨hg, hget⟩ := mem_scoredEntries chunks query e hmem
      refine ⟨⟨?_, cosineSim_le_one _ _⟩, hget⟩
      unfold scoreOf
      rw [cosineSim_pos_iff]
      obtain ⟨hn, _, hp⟩ := hg
      exact hn ▸ hp
    · have hpw : (sortScored (scoredEntries chunks query)).Pairwise entryRel :=
        pairwise_sortScored (scoredEntries chunks query)
          (fun e he =>
            GoodEntry.dn_pos query e (mem_scoredEntries chunks query e he).1)
          (scoredEntries_idx_pairwise chunks query)
      have hpw2 : ((sortScored (scoredEntries chunks query)).take topK).Pairwise entryRel :=
        List.Pairwise.sublist (List.take_sublist _ _) hpw
      refine List.Pairwise.imp_of_mem ?_ hpw2
      intro a b ha hb hrel
      have hga := (mem_scoredEntries chunks query a
        ((sortScored_perm _).subset (List.take_subset _ _ ha))).1
      have hgb := (mem_scoredEntries chunks query b
        ((sortScored_perm _).subset (List.take_subset _ _ hb))).1
      exact entryRel_score query a b hga hgb hrel

/-- Witness for claim C3 at the spec's end-to-end retrieval scenario. -/
theorem claim3_witness :
    (search [⟨"Vitality Complex keeps energy stable for remote teams.", "doc1", 0⟩]
        "energy for remote teams" 3).length ≤ 3
    ∧ (search [⟨"Vitality Complex keeps energy stable for remote teams.", "doc1", 0⟩]
        "energy for remote teams" 3).Pairwise (fun a b =>
          scoreOf "energy for remote teams" b ≤ scoreOf "energy for remote teams" a
          ∧ (scoreOf "energy for remote teams" a = scoreOf "energy for remote teams" b →
              a.idx < b.idx)) :=
  ⟨(claim3_search_ranked
      [⟨"Vitality Complex keeps energy stable for remote teams.", "doc1", 0⟩]
      "energy for remote teams" 3).1,
    (claim3_search_ranked
      [⟨"Vitality Complex keeps energy stable for remote teams.", "doc1", 0⟩]
      "energy for remote teams" 3).2.2⟩

end Biotact
